import Mathlib

/-!
# Verification of the llm-council deliberation core

A shallow embedding of the ranking-aggregation, routing, classification and
leaderboard code of the llm-council repository, together with theorems that
settle the specification claims about it.

Conventions of the embedding:
* Python `dict` (insertion-ordered, unique keys) is modelled as an
  insertion-ordered association list `List (String × α)`; `alookup` reads the
  first binding, `aset` overwrites in place or appends, `bump` models
  `defaultdict` accumulation (`d[k] += v`).
* Python `float` is modelled as `ℚ`; every numeric value the claims touch is a
  small integer, a half, or a tenth, on which Python float arithmetic is exact
  (the one caveat, `int(n * 0.3)` at `n = 10`, is noted at the definition that
  uses it).
* Async/LLM calls are abstracted as explicit inputs: the text a model returned
  (or `none` for a failed/unparseable reply) is a parameter of the embedded
  function, and the pure post-processing is translated faithfully.
-/

namespace LLMCouncil

/-- First binding for key `k` in an insertion-ordered association list: the
model of a Python `dict` read (`m[k]` / `m.get(k)`). -/
def alookup {α : Type} : List (String × α) → String → Option α
  | [], _ => none
  | (k', v) :: rest, k => if k' = k then some v else alookup rest k

/-- Dict assignment `m[k] = v`: overwrite in place, else append. -/
def aset {α : Type} : List (String × α) → String → α → List (String × α)
  | [], k, v => [(k, v)]
  | (k', v') :: rest, k, v => if k' = k then (k, v) :: rest else (k', v') :: aset rest k v

/-- `defaultdict(float)` accumulation `scores[k] += v`: add in place, keeping
the key at its first-insertion position, else append with value `v`. -/
def bump : List (String × ℚ) → String → ℚ → List (String × ℚ)
  | [], k, v => [(k, v)]
  | (k', v') :: rest, k, v =>
      if k' = k then (k', v' + v) :: rest else (k', v') :: bump rest k v

/-- `defaultdict(list)` accumulation `positions[k].append(p)`. -/
def appendPos : List (String × List Nat) → String → Nat → List (String × List Nat)
  | [], k, p => [(k, [p])]
  | (k', ps) :: rest, k, p =>
      if k' = k then (k', ps ++ [p]) :: rest else (k', ps) :: appendPos rest k p

/-- Score read with the `defaultdict` default: a label never inserted scores 0. -/
def scoreOf (scores : List (String × ℚ)) (k : String) : ℚ :=
  (alookup scores k).getD 0

/-! ## `backend/analysis.py` — data model

A Stage-2 output as consumed by the aggregator: `backend/council/stage2.py`
builds each result dict with a `model` id and the `parsed_ranking` list of
label strings (`"Response A"`, …) produced by `parse_ranking_from_text`. -/

structure RankingResult where
  model : String
  parsed_ranking : List String
deriving Repr, DecidableEq

/-- One entry of the optional `rubric_scores` argument of
`calculate_weighted_rankings`: `{"response": label, "weighted_score": s}`. -/
structure RubricScoreEntry where
  response : String
  weighted_score : ℚ
deriving Repr, DecidableEq

/-- The body of `for i, entry in enumerate(parsed): scores[label] += num_responses - i`
in `calculate_weighted_rankings` (analysis.py:239-242): `n` is `len(parsed)`
and `i` the running 0-based index. -/
def addRankingAux (scores : List (String × ℚ)) (n : ℚ) : Nat → List String → List (String × ℚ)
  | _, [] => scores
  | i, label :: rest => addRankingAux (bump scores label (n - i)) n (i + 1) rest

/-- One evaluator's contribution to the Borda scores. -/
def addRanking (scores : List (String × ℚ)) (parsed : List String) : List (String × ℚ) :=
  addRankingAux scores (parsed.length : ℚ) 0 parsed

/-- `calculate_weighted_rankings` (analysis.py:216-252). Position-based
scoring over all evaluators, then an optional blend of rubric scores at weight
0.5; entries whose label is empty or whose score is 0 are skipped (both are
falsy in Python). -/
def calculate_weighted_rankings (rankings : List RankingResult)
    (rubric_scores : Option (List RubricScoreEntry)) : List (String × ℚ) :=
  let scores := rankings.foldl (fun s r => addRanking s r.parsed_ranking) []
  match rubric_scores with
  | none => scores
  | some entries =>
      entries.foldl
        (fun s e =>
          if e.response ≠ "" ∧ e.weighted_score ≠ 0 then
            bump s e.response (e.weighted_score * (1 / 2))
          else s)
        scores

/-- `get_top_response` (analysis.py:255-269). `max(weighted_scores,
key=weighted_scores.get)` scans the dict in insertion order and keeps the
current best unless a later value is strictly greater, so the first key
attaining the maximum wins. -/
def get_top_response (weighted_scores : List (String × ℚ))
    (label_to_model : List (String × String)) : String × String × ℚ :=
  match weighted_scores with
  | [] => ("", "", 0)
  | p :: rest =>
      let top := rest.foldl (fun best q => if q.2 > best.2 then q else best) p
      (top.1, (alookup label_to_model top.1).getD "unknown", top.2)

/-! ## Spec-side Borda formula (for the refinement statement of C1) -/

/-- 1-indexed position of the first occurrence of `label`, as the spec speaks
of "the label's 1-indexed position in that evaluator's parsed ranking". -/
def posOf : List String → String → Option Nat
  | [], _ => none
  | x :: xs, label => if x = label then some 1 else (posOf xs label).map (· + 1)

/-- The Borda points the spec's formula assigns: position `i` (1-indexed) in a
parsed ranking of length `n` scores `n − i + 1`; an absent label scores 0. -/
def specBordaPoints (parsed : List String) (label : String) : ℚ :=
  match posOf parsed label with
  | some i => (parsed.length : ℚ) - i + 1
  | none => 0

/-! ## `detect_minority_opinions` (analysis.py:130-213)

The minority-opinion entry keeps the fields the claims speak about; the
display-only fields (`consensus_position` rounded to one decimal, the
`details` dicts and the `description` f-string) are omitted. -/

structure MinorityOpinion where
  response : String
  model : String
  dissent_direction : String
  dissenting_models : List String
deriving Repr, DecidableEq

/-- The inner loop of the `position_counts` build: `for i, entry in
enumerate(parsed): position_counts[label].append(i + 1)`. -/
def addPositionsAux : List (String × List Nat) → Nat → List String → List (String × List Nat)
  | acc, _, [] => acc
  | acc, i, label :: rest => addPositionsAux (appendPos acc label (i + 1)) (i + 1) rest

/-- `position_counts` (analysis.py:156-161): 1-indexed positions of every
label, per evaluator, accumulated over all rankings. -/
def positionCounts (rankings : List RankingResult) : List (String × List Nat) :=
  rankings.foldl (fun acc r => addPositionsAux acc 0 r.parsed_ranking) []

/-- The per-label loop body (analysis.py:166-211).  `zip(rankings, positions)`
pairs the recorded positions with the rankings list positionally (so the i-th
recorded position is attributed to the i-th ranking overall, not to the
ranking that recorded it).  `diff >= 1.5` selects `dissenters_low`,
`diff <= -1.5` selects `dissenters_high`; a "higher" entry is appended first,
then a "lower" entry. -/
def minorityEntriesFor (rankings : List RankingResult)
    (label_to_model : List (String × String)) (min_dissenters : Nat)
    (lp : String × List Nat) : List MinorityOpinion :=
  if lp.2.length < 2 then []
  else
    let avg : ℚ := ((lp.2.map (fun p => (p : ℚ))).sum) / (lp.2.length : ℚ)
    let paired := rankings.zip lp.2
    let dissenters_low := paired.filter (fun q => ((q.2 : ℚ) - avg) ≥ 3 / 2)
    let dissenters_high := paired.filter (fun q => ((q.2 : ℚ) - avg) ≤ -(3 / 2))
    (if min_dissenters ≤ dissenters_high.length then
      [⟨lp.1, (alookup label_to_model lp.1).getD "unknown", "higher",
        dissenters_high.map (fun q => q.1.model)⟩]
    else []) ++
    (if min_dissenters ≤ dissenters_low.length then
      [⟨lp.1, (alookup label_to_model lp.1).getD "unknown", "lower",
        dissenters_low.map (fun q => q.1.model)⟩]
    else [])

/-- `detect_minority_opinions` (analysis.py:130-213).  Returns `[]` outright
for fewer than 3 rankings.  `min_dissenters = max(1, int(num_rankers *
threshold))`; the product is nonnegative, so Python `int` truncation is the
floor.  (With the exact rational `threshold = 3/10` in place of the binary
float `0.3`, `⌊n·threshold⌋` differs from Python only at `n = 10`, where
`int(10 * 0.3) = 2`.) -/
def detect_minority_opinions (rankings : List RankingResult)
    (label_to_model : List (String × String)) (threshold : ℚ) : List MinorityOpinion :=
  if rankings.length < 3 then []
  else
    let min_dissenters : Nat := max 1 (⌊(rankings.length : ℚ) * threshold⌋).toNat
    (positionCounts rankings).foldl
      (fun acc lp => acc ++ minorityEntriesFor rankings label_to_model min_dissenters lp) []

/-! ## `backend/council/ranking.py` — quality-rating extraction

`extract_quality_ratings` (ranking.py:22-31) iterates over the matches of
`(?:Response\s+)?([A-Z])\s*[:\(]\s*(\d+(?:\.\d+)?)\s*/\s*(?:5|10)`
(case-insensitive).  The regex scan itself is abstracted: the function below
receives the ordered list of capture pairs (letter, numeric value) that
`re.finditer` produced; the numeric capture `\d+(\.\d+)?` is always a
nonnegative decimal.  The stored-value computation is translated verbatim. -/

structure RatingMatch where
  letter : Char
  value : ℚ
deriving Repr, DecidableEq

/-- `f"Response {match.group(1).upper()}"`. -/
def ratingLabel (m : RatingMatch) : String :=
  "Response " ++ String.mk [m.letter.toUpper]

/-- `if score > 5: score = score / 2` (ranking.py:28-29). -/
def normalizeRating (v : ℚ) : ℚ :=
  if v > 5 then v / 2 else v

/-- The loop of `extract_quality_ratings`: later matches of the same label
overwrite earlier ones (`ratings[label] = score`). -/
def extract_quality_ratings (ms : List RatingMatch) : List (String × ℚ) :=
  ms.foldl (fun ratings m => aset ratings (ratingLabel m) (normalizeRating m.value)) []

/-! ## `backend/council/routing.py` — classifier heuristic (lines 14-52) -/

/-- The fixed `followup_phrases` list (routing.py:21-38). -/
def followupPhrases : List String :=
  ["follow up", "followup", "follow-up",
   "as i said", "as i mentioned", "as we discussed",
   "what you said", "what you mentioned", "you said",
   "you mentioned", "you suggested", "you recommended",
   "all of this", "all of that", "incorporate the above",
   "based on this", "based on that", "based on what",
   "can you summarize", "can you consolidate",
   "going back to", "regarding what", "about what you",
   "the above", "from above", "mentioned earlier",
   "earlier you", "previously you", "you just said",
   "expand on", "elaborate on", "more about",
   "what about", "how about", "and what about",
   "can you also", "one more thing",
   "thanks, now", "ok, now", "great, now",
   "ok now", "ok so", "ok can you",
   "also,", "also can you"]

/-- `context_pronouns` (routing.py:45). -/
def contextPronouns : List String := ["that", "this", "it", "them", "those", "these"]

/-- The definitional-opener exclusions (routing.py:49). -/
def definitionalPhrases : List String := ["what is a", "what is an", "define ", "who is "]

/-- Python `str.lower()` (ASCII scope), on the character list so that it is
kernel-computable. -/
def toLowerStr (s : String) : String := String.mk (s.data.map Char.toLower)

/-- Python `str.strip()`: whitespace removed from both ends. -/
def pyStrip (s : String) : String :=
  String.mk (((s.data.dropWhile Char.isWhitespace).reverse.dropWhile Char.isWhitespace).reverse)

/-- Python substring test `sub in s`. -/
def containsSub (s sub : String) : Bool := decide (sub.data <:+: s.data)

/-- Helper for `pySplit`: accumulate the current word (reversed) while
scanning. -/
def pyWordsAux : List Char → List Char → List String
  | [], acc => if acc.isEmpty then [] else [String.mk acc.reverse]
  | c :: rest, acc =>
      if c.isWhitespace then
        if acc.isEmpty then pyWordsAux rest []
        else String.mk acc.reverse :: pyWordsAux rest []
      else pyWordsAux rest (c :: acc)

/-- Python `str.split()` with no argument: split on whitespace runs, no empty
words. -/
def pySplit (s : String) : List String := pyWordsAux s.data []

/-- A classification result `{"type": ..., "reasoning": ...}` (the empty
`usage` dict carried along by the code is omitted). -/
structure Classification where
  type : String
  reasoning : String
deriving Repr, DecidableEq

/-- `_is_followup_heuristic` (routing.py:14-52).  The Python pronoun loop
keeps iterating if the definitional-opener test fails, but that test does not
depend on the pronoun, so returning `none` at the first matching pronoun is
equivalent. -/
def is_followup_heuristic (query : String) (has_history : Bool) : Option Classification :=
  if !has_history then none
  else
    let query_lower := pyStrip (toLowerStr query)
    match followupPhrases.find? (fun ph => containsSub query_lower ph) with
    | some ph => some ⟨"followup", "Heuristic: contains " ++ ph⟩
    | none =>
      if (pySplit query_lower).length ≤ 15 then
        match contextPronouns.find? (fun p => (pySplit query_lower).contains p) with
        | some p =>
            if !(definitionalPhrases.any (fun w => containsSub query_lower w)) then
              some ⟨"followup", "Heuristic: short message with context-dependent pronoun " ++ p⟩
            else none
        | none => none
      else none

/-- One conversation-history message (only emptiness of the history matters to
the fast path). -/
structure HistoryMsg where
  role : String
  content : String
deriving Repr, DecidableEq

/-- `classify_message` (routing.py:55-110).  The LLM branch (prompt build,
`query_model_with_retry`, JSON parse and defaulting, lines 66-110) is
abstracted as `llmOutcome`, the classification that branch would produce; the
second component counts backend/LLM calls made. -/
def classify_message (user_query : String) (conversation_history : List HistoryMsg)
    (llmOutcome : Classification) : Classification × Nat :=
  let has_history := !conversation_history.isEmpty
  match is_followup_heuristic user_query has_history with
  | some heuristic => (heuristic, 0)
  | none => (llmOutcome, 1)

/-! ## `backend/council/routing.py` — router (lines 113-220) -/

/-- An advisor roster summary as built by `get_advisor_roster_summary`. -/
structure Advisor where
  id : String
  name : String
  role : String
  tags : List String
deriving Repr, DecidableEq

/-- One entry of the LLM router reply's `panel` array. -/
structure RouterItem where
  advisor_id : String
  model : String
  reasoning : String
deriving Repr, DecidableEq

/-- One validated panel entry. -/
structure PanelEntry where
  advisor_id : String
  model : String
  reasoning : String
deriving Repr, DecidableEq

/-- The routing policy `{min_advisors, max_advisors, default_advisors}`. -/
structure RoutingConfig where
  min_advisors : Nat
  max_advisors : Nat
  default_advisors : Nat
deriving Repr, DecidableEq

/-- `_fallback_panel` (routing.py:207-220): first `count` advisors in council
order with round-robin model assignment. -/
def fallback_panel (advisors : List Advisor) (models : List String) (count : Nat) :
    List PanelEntry :=
  ((advisors.take count).enum).map
    (fun p => ⟨p.2.id, models.getD (p.1 % models.length) "", "fallback selection"⟩)

/-- One iteration of the validation loop (routing.py:183-194): drop entries
whose advisor id is unknown; substitute an unavailable model by
`all_models[len(validated) % len(all_models)]`. -/
def validateStep (advisors : List Advisor) (all_models : List String)
    (validated : List PanelEntry) (item : RouterItem) : List PanelEntry :=
  if (advisors.map Advisor.id).contains item.advisor_id then
    let model := if all_models.contains item.model then item.model
                 else all_models.getD (validated.length % all_models.length) ""
    validated ++ [⟨item.advisor_id, model, item.reasoning⟩]
  else validated

/-- The validation loop over the LLM panel reply. -/
def validatePanel (advisors : List Advisor) (all_models : List String)
    (panel : List RouterItem) : List PanelEntry :=
  panel.foldl (validateStep advisors all_models) []

/-- `stage0_route_question` (routing.py:113-204).  The LLM call is abstracted
as `llmPanel`: `none` stands for every failure mode that skips validation (no
response, empty content, JSON parse failure, missing `panel` key, exception),
`some panel` for a reply whose `panel` array was extracted. -/
def stage0_route_question (advisors : List Advisor) (cfg : RoutingConfig)
    (all_models : List String) (llmPanel : Option (List RouterItem)) : List PanelEntry :=
  if advisors.isEmpty then []
  else
    match llmPanel with
    | none => fallback_panel advisors all_models cfg.default_advisors
    | some panel =>
        let validated := validatePanel advisors all_models panel
        if validated.length < cfg.min_advisors then
          fallback_panel advisors all_models cfg.default_advisors
        else validated.take cfg.max_advisors

/-! ## `backend/council/stage2.py` — label assignment (lines 35-54) -/

/-- A Stage-1 result dict as consumed by Stage 2: `role` and `member_id` may
be absent (`result.get(...)` with a fallback derived from the model id). -/
structure Stage1Result where
  model : String
  role : Option String
  member_id : Option String
  response : String
deriving Repr, DecidableEq

/-- Python `model.split("/")[-1]`. -/
def lastSegment (model : String) : String := (model.splitOn "/").getLastD model

/-- The member-info value built for each label (stage2.py:43-47). -/
structure MemberInfo where
  model : String
  role : String
  member_id : String
deriving Repr, DecidableEq

def memberInfoOf (r : Stage1Result) : MemberInfo :=
  ⟨r.model, r.role.getD (lastSegment r.model), r.member_id.getD (lastSegment r.model)⟩

/-- `labels = [chr(65 + i) for i in range(len(stage1_results))]` (stage2.py:35). -/
def labelsFor (stage1_results : List Stage1Result) : List String :=
  (List.range stage1_results.length).map (fun i => String.mk [Char.ofNat (65 + i)])

/-- The `label_to_member` dict comprehension (stage2.py:42-49): keys are
`f"Response {label}"` for the positionally assigned labels. -/
def buildLabelToMember (stage1_results : List Stage1Result) : List (String × MemberInfo) :=
  ((labelsFor stage1_results).zip stage1_results).map
    (fun p => ("Response " ++ p.1, memberInfoOf p.2))

/-! ## `backend/leaderboard.py` (lines 32-96)

The JSON file round-trip (`_load_leaderboard` / `_save_leaderboard`) is
outside the model: `record_deliberation_result` is embedded as the pure update
of the in-memory `{council_id: {backend_id: entry}}` data. -/

structure LeaderboardEntry where
  wins : Nat
  participations : Nat
  total_score : ℚ
  avg_position : ℚ
  positions : List Nat
  rubric_scores : List (String × List ℚ)
deriving Repr, DecidableEq

/-- `_ensure_model_entry`'s fresh entry (leaderboard.py:35-42). -/
def newLeaderboardEntry : LeaderboardEntry := ⟨0, 0, 0, 0, [], []⟩

/-- Append then keep the last 50: `w.append(x)`, `if len(w) > 50: w = w[-50:]`
(leaderboard.py:75-79 and 91-94). -/
def pushWindow50 {α : Type} (w : List α) (x : α) : List α :=
  let w' := w ++ [x]
  if w'.length > 50 then w'.drop (w'.length - 50) else w'

/-- The rubric-score loop (leaderboard.py:87-94): for each criterion with a
submitted score, append to that criterion's bounded window. -/
def updateRubric (rs : List (String × List ℚ)) (criteria : List (String × ℚ)) :
    List (String × List ℚ) :=
  criteria.foldl (fun rs c => aset rs c.1 (pushWindow50 ((alookup rs c.1).getD []) c.2)) rs

/-- The per-model body of the update loop (leaderboard.py:71-94). -/
def updateEntry (e : LeaderboardEntry) (position : Nat) (score : ℚ) (isWinner : Bool)
    (rubric : Option (List (String × ℚ))) : LeaderboardEntry :=
  let positions := pushWindow50 e.positions position
  { wins := e.wins + (if isWinner then 1 else 0)
    participations := e.participations + 1
    total_score := e.total_score + score
    avg_position := ((positions.map (fun p => (p : ℚ))).sum) / (positions.length : ℚ)
    positions := positions
    rubric_scores :=
      match rubric with
      | some cs => updateRubric e.rubric_scores cs
      | none => e.rubric_scores }

/-- Stable insertion for the descending sort by score. -/
def insertScoreDesc (x : String × ℚ) : List (String × ℚ) → List (String × ℚ)
  | [] => [x]
  | y :: ys => if x.2 ≥ y.2 then x :: y :: ys else y :: insertScoreDesc x ys

/-- `sorted(model_scores.items(), key=lambda x: x[1], reverse=True)`: a stable
descending sort by score. -/
def sortByScoreDesc (l : List (String × ℚ)) : List (String × ℚ) :=
  l.foldr insertScoreDesc []

/-- `for position, (model_id, score) in enumerate(sorted_models, 1)`:
positions start at 1; each model's entry is created if absent and updated in
place. -/
def recordAux (winner : String) (rubric_scores : Option (List (String × List (String × ℚ)))) :
    List (String × LeaderboardEntry) → Nat → List (String × ℚ) →
    List (String × LeaderboardEntry)
  | council, _, [] => council
  | council, pos, (m, s) :: rest =>
      let e := (alookup council m).getD newLeaderboardEntry
      recordAux winner rubric_scores
        (aset council m
          (updateEntry e pos s (m = winner) (rubric_scores.bind (fun rs => alookup rs m))))
        (pos + 1) rest

/-- `record_deliberation_result` (leaderboard.py:46-96) as the pure in-memory
update (`last_updated` and the file write are outside the model). -/
def record_deliberation_result (data : List (String × List (String × LeaderboardEntry)))
    (council_id : String) (model_scores : List (String × ℚ)) (winner_model : String)
    (rubric_scores : Option (List (String × List (String × ℚ)))) :
    List (String × List (String × LeaderboardEntry)) :=
  let council := (alookup data council_id).getD []
  let sorted_models := sortByScoreDesc model_scores
  aset data council_id (recordAux winner_model rubric_scores council 1 sorted_models)

/-- Every window of an entry is within the 50-element bound. -/
def boundedEntry (e : LeaderboardEntry) : Prop :=
  e.positions.length ≤ 50 ∧ ∀ w ∈ e.rubric_scores, w.2.length ≤ 50

/-- Every entry of every council is within the window bound. -/
def boundedData (data : List (String × List (String × LeaderboardEntry))) : Prop :=
  ∀ c ∈ data, ∀ me ∈ c.2, boundedEntry me.2

/-! ## Concrete inputs used by witnesses and counterexamples -/

/-- Scenario S1 of the spec: parsed rankings `[A,B,C]`, `[B,A,C]`, `[A,C,B]`. -/
def s1Rankings : List RankingResult :=
  [⟨"m1", ["Response A", "Response B", "Response C"]⟩,
   ⟨"m2", ["Response B", "Response A", "Response C"]⟩,
   ⟨"m3", ["Response A", "Response C", "Response B"]⟩]

def s1LabelToModel : List (String × String) :=
  [("Response A", "m1"), ("Response B", "m2"), ("Response C", "m3")]

/-- Two evaluators whose rankings tie labels A and B at 3 points each, B
first-inserted: the winner is decided by insertion order, not letter order. -/
def tieRankings : List RankingResult :=
  [⟨"m1", ["Response B", "Response A"]⟩,
   ⟨"m2", ["Response A", "Response B"]⟩]

/-- Two evaluators with a maximal disagreement on labels A and D. -/
def minority2Rankings : List RankingResult :=
  [⟨"m1", ["Response A", "Response B", "Response C", "Response D"]⟩,
   ⟨"m2", ["Response D", "Response B", "Response C", "Response A"]⟩]

/-- Three evaluators, the first of which ranked nothing: positions recorded by
`m2` and `m3` get attributed to `m1` and `m2` by `zip(rankings, positions)`. -/
def minority3Rankings : List RankingResult :=
  [⟨"m1", []⟩,
   ⟨"m2", ["Response A", "Response B", "Response C", "Response D"]⟩,
   ⟨"m3", ["Response D", "Response B", "Response C", "Response A"]⟩]

def abcdLabelToModel : List (String × String) :=
  [("Response A", "m2"), ("Response B", "mB"), ("Response C", "mC"), ("Response D", "m3")]

/-- A three-advisor roster with distinct ids. -/
def demoAdvisors : List Advisor :=
  [⟨"a", "Advisor A", "roleA", []⟩, ⟨"b", "Advisor B", "roleB", []⟩,
   ⟨"c", "Advisor C", "roleC", []⟩]

/-- A syntactically valid LLM reply that repeats one advisor id. -/
def dupRouterPanel : List RouterItem :=
  [⟨"a", "m", ""⟩, ⟨"a", "m", ""⟩]

def demoRoutingConfig : RoutingConfig := ⟨2, 3, 3⟩

/-- Three Stage-1 outputs for the label-bijection witness. -/
def demoStage1 : List Stage1Result :=
  [⟨"prov/m1", some "r1", some "id1", "t1"⟩,
   ⟨"prov/m2", none, none, "t2"⟩,
   ⟨"prov/m3", some "r3", none, "t3"⟩]

/-- A three-member panel matching `demoStage1` (one Stage-1 output per panel
member). -/
def demoPanel : List PanelEntry :=
  [⟨"a", "prov/m1", ""⟩, ⟨"b", "prov/m2", ""⟩, ⟨"c", "prov/m3", ""⟩]

/-- The ranking that the C8 counterexample appends: it ranks A first yet also
hands B one Borda point. -/
def c8Extra : RankingResult := ⟨"m9", ["Response A", "Response B"]⟩

/-! ## Lemmas about the dictionary model -/

theorem scoreOf_nil (L : String) : scoreOf [] L = 0 := rfl

theorem scoreOf_bump (m : List (String × ℚ)) (k : String) (v : ℚ) (L : String) :
    scoreOf (bump m k v) L = scoreOf m L + if k = L then v else 0 := by
  induction m with
  | nil =>
      by_cases h : k = L <;> simp [bump, scoreOf, alookup, h]
  | cons p rest ih =>
      obtain ⟨k', v'⟩ := p
      by_cases hk : k' = k
      · subst hk
        by_cases hL : k' = L <;> simp [bump, scoreOf, alookup, hL]
      · by_cases hL : k' = L
        · subst hL
          have hkL : ¬ k = k' := fun h => hk h.symm
          simp [bump, scoreOf, alookup, hk, hkL]
        · simpa [bump, scoreOf, alookup, hk, hL] using ih

theorem posOf_eq_none_of_not_mem {L : String} :
    ∀ {xs : List String}, L ∉ xs → posOf xs L = none := by
  intro xs
  induction xs with
  | nil => intro _; rfl
  | cons x rest ih =>
      intro h
      have hx : ¬ x = L := fun he => h (he ▸ List.mem_cons_self x rest)
      have hr : L ∉ rest := fun hm => h (List.mem_cons_of_mem x hm)
      simp [posOf, hx, ih hr]

theorem posOf_bounds {L : String} :
    ∀ {xs : List String} {j : Nat}, posOf xs L = some j → 1 ≤ j ∧ j ≤ xs.length := by
  intro xs
  induction xs with
  | nil => intro j h; simp [posOf] at h
  | cons x rest ih =>
      intro j h
      by_cases hx : x = L
      · simp [posOf, hx] at h
        simp [List.length_cons]
        omega
      · simp [posOf, hx] at h
        obtain ⟨j', hj', rfl⟩ := h
        have := ih hj'
        simp [List.length_cons]
        omega

theorem scoreOf_addRankingAux (n : ℚ) (L : String) :
    ∀ (xs : List String) (s : List (String × ℚ)) (i : Nat), xs.Nodup →
      scoreOf (addRankingAux s n i xs) L
        = scoreOf s L
          + (match posOf xs L with
             | some j => n - ((i : ℚ) + (j : ℚ)) + 1
             | none => 0) := by
  intro xs
  induction xs with
  | nil => intro s i _; simp [addRankingAux, posOf]
  | cons x rest ih =>
      intro s i hnd
      rw [List.nodup_cons] at hnd
      by_cases hx : x = L
      · subst hx
        rw [addRankingAux, ih _ _ hnd.2, posOf_eq_none_of_not_mem hnd.1, scoreOf_bump]
        simp [posOf]
        ring
      · rw [addRankingAux, ih _ _ hnd.2, scoreOf_bump]
        simp only [posOf, hx, if_false]
        cases hp : posOf rest L with
        | none => simp [hx]
        | some j =>
            simp [hx]
            ring

theorem scoreOf_addRanking (s : List (String × ℚ)) (parsed : List String) (L : String)
    (h : parsed.Nodup) :
    scoreOf (addRanking s parsed) L = scoreOf s L + specBordaPoints parsed L := by
  unfold addRanking specBordaPoints
  rw [scoreOf_addRankingAux _ _ _ _ _ h]
  cases posOf parsed L <;> simp

theorem scoreOf_foldl_addRanking (L : String) :
    ∀ (rankings : List RankingResult) (s : List (String × ℚ)),
      (∀ r ∈ rankings, r.parsed_ranking.Nodup) →
      scoreOf (rankings.foldl (fun s r => addRanking s r.parsed_ranking) s) L
        = scoreOf s L + (rankings.map (fun r => specBordaPoints r.parsed_ranking L)).sum := by
  intro rankings
  induction rankings with
  | nil => intro s _; simp
  | cons r rest ih =>
      intro s h
      have hr := h r (List.mem_cons_self r rest)
      have hrest : ∀ q ∈ rest, q.parsed_ranking.Nodup :=
        fun q hq => h q (List.mem_cons_of_mem r hq)
      simp only [List.foldl_cons, List.map_cons, List.sum_cons]
      rw [ih _ hrest, scoreOf_addRanking _ _ _ hr]
      ring

/-- The Borda refinement: the weighted score of every label is the sum of the
spec formula `n − i + 1` over the evaluators, provided every parsed ranking
lists each label at most once (which `parse_ranking_from_text` guarantees by
deduplication). -/
theorem scoreOf_calculate_weighted_rankings (rankings : List RankingResult) (L : String)
    (h : ∀ r ∈ rankings, r.parsed_ranking.Nodup) :
    scoreOf (calculate_weighted_rankings rankings none) L
      = (rankings.map (fun r => specBordaPoints r.parsed_ranking L)).sum := by
  unfold calculate_weighted_rankings
  rw [scoreOf_foldl_addRanking L rankings [] h, scoreOf_nil, zero_add]

/-! ## The first-maximum characterization of `get_top_response` -/

/-- The running best of `max(..., key=...)`: the fold keeps the current best
unless a later value is strictly greater, so it lands on the first pair whose
value every earlier pair (and the seed) is strictly below and no later pair
exceeds. -/
theorem foldl_max_first (l : List (String × ℚ)) (b : String × ℚ) :
    (l.foldl (fun best q => if q.2 > best.2 then q else best) b = b
       ∧ ∀ q ∈ l, q.2 ≤ b.2)
    ∨ (∃ l₁ t l₂, l = l₁ ++ t :: l₂
        ∧ l.foldl (fun best q => if q.2 > best.2 then q else best) b = t
        ∧ b.2 < t.2 ∧ (∀ q ∈ l₁, q.2 < t.2) ∧ ∀ q ∈ l₂, q.2 ≤ t.2) := by
  induction l generalizing b with
  | nil => exact Or.inl ⟨rfl, by simp⟩
  | cons x xs ih =>
      by_cases hx : x.2 > b.2
      · rcases ih x with ⟨heq, hle⟩ | ⟨l₁, t, l₂, hsplit, heq, hlt, hl₁, hl₂⟩
        · refine Or.inr ⟨[], x, xs, by simp, ?_, hx, by simp, hle⟩
          simpa [hx] using heq
        · refine Or.inr ⟨x :: l₁, t, l₂, by simp [hsplit], ?_, lt_trans hx hlt, ?_, hl₂⟩
          · simpa [hx] using heq
          · intro q hq
            rcases List.mem_cons.mp hq with rfl | hq
            · exact hlt
            · exact hl₁ q hq
      · push_neg at hx
        rcases ih b with ⟨heq, hle⟩ | ⟨l₁, t, l₂, hsplit, heq, hlt, hl₁, hl₂⟩
        · refine Or.inl ⟨by simpa [not_lt.mpr hx] using heq, ?_⟩
          intro q hq
          rcases List.mem_cons.mp hq with rfl | hq
          · exact hx
          · exact hle q hq
        · refine Or.inr ⟨x :: l₁, t, l₂, by simp [hsplit], ?_, hlt, ?_, hl₂⟩
          · simpa [not_lt.mpr hx] using heq
          · intro q hq
            rcases List.mem_cons.mp hq with rfl | hq
            · exact lt_of_le_of_lt hx hlt
            · exact hl₁ q hq

/-! ## Bounds on the spec-side Borda points -/

theorem specBordaPoints_nonneg (p : List String) (L : String) :
    0 ≤ specBordaPoints p L := by
  unfold specBordaPoints
  cases hp : posOf p L with
  | none => simp
  | some j =>
      have hb := posOf_bounds hp
      have h1 : (1 : ℚ) ≤ (j : ℚ) := by exact_mod_cast hb.1
      have h2 : (j : ℚ) ≤ (p.length : ℚ) := by exact_mod_cast hb.2
      simp only []
      linarith

theorem specBordaPoints_le_length (p : List String) (L : String) :
    specBordaPoints p L ≤ (p.length : ℚ) := by
  unfold specBordaPoints
  cases hp : posOf p L with
  | none => simp
  | some j =>
      have hb := posOf_bounds hp
      have h1 : (1 : ℚ) ≤ (j : ℚ) := by exact_mod_cast hb.1
      simp only []
      linarith

theorem specBordaPoints_head (X : String) (rest : List String) :
    specBordaPoints (X :: rest) X = ((X :: rest).length : ℚ) := by
  unfold specBordaPoints posOf
  simp

theorem calculate_weighted_rankings_append_single (rankings : List RankingResult)
    (r : RankingResult) :
    calculate_weighted_rankings (rankings ++ [r]) none
      = addRanking (calculate_weighted_rankings rankings none) r.parsed_ranking := by
  unfold calculate_weighted_rankings
  simp [List.foldl_append]

/-! ## Claim theorems -/

/-- C1 — Borda aggregation: for every list of Stage-2 outputs (with each
evaluator's parsed ranking listing a label at most once, as the parser
guarantees), the weighted score of every label equals the sum over evaluators
of `n − i + 1` for the label's 1-indexed position `i` in that evaluator's
parsed ranking of length `n`, an absent label scoring 0 for that evaluator;
in particular, for the S1 rankings `[A,B,C]`, `[B,A,C]`, `[A,C,B]` the scores
are A = 8, B = 6, C = 4 and the selected winner is label A. -/
theorem claim_c1_borda_aggregation :
    (∀ (rankings : List RankingResult),
        (∀ r ∈ rankings, r.parsed_ranking.Nodup) →
        ∀ L, scoreOf (calculate_weighted_rankings rankings none) L
          = (rankings.map (fun r => specBordaPoints r.parsed_ranking L)).sum)
    ∧ calculate_weighted_rankings s1Rankings none
        = [("Response A", 8), ("Response B", 6), ("Response C", 4)]
    ∧ (get_top_response (calculate_weighted_rankings s1Rankings none) s1LabelToModel).1
        = "Response A" := by
  refine ⟨fun rankings h L => scoreOf_calculate_weighted_rankings rankings L h, ?_, ?_⟩
  · norm_num +decide [calculate_weighted_rankings, addRanking, addRankingAux, bump, s1Rankings]
  · norm_num +decide [calculate_weighted_rankings, addRanking, addRankingAux, bump, s1Rankings,
      get_top_response, alookup]

/-- Witness for C1: the refinement conjunct applied to the S1 rankings, whose
parsed rankings are duplicate-free. -/
theorem claim_c1_borda_aggregation_witness :
    scoreOf (calculate_weighted_rankings s1Rankings none) "Response A"
      = (s1Rankings.map (fun r => specBordaPoints r.parsed_ranking "Response A")).sum :=
  claim_c1_borda_aggregation.1 s1Rankings (by decide) "Response A"

/-- C2 counterexample: the weighted-score map built from the parsed rankings
`[B,A]`, `[A,B]` ties A and B at 3 points with B inserted first;
`get_top_response` returns label B, not the earliest letter A, so ties are
not broken by earliest label letter. -/
theorem claim_c2_counterexample :
    calculate_weighted_rankings tieRankings none = [("Response B", 3), ("Response A", 3)]
    ∧ (get_top_response (calculate_weighted_rankings tieRankings none) s1LabelToModel).1
        = "Response B"
    ∧ ("Response B" : String) ≠ "Response A" := by
  refine ⟨?_, ?_, by decide⟩
  · norm_num +decide [calculate_weighted_rankings, addRanking, addRankingAux, bump, tieRankings]
  · norm_num +decide [calculate_weighted_rankings, addRanking, addRankingAux, bump, tieRankings,
      get_top_response, alookup]

/-- C2 (amended) — for every non-empty weighted-scores map, winner selection
returns a label with the maximum weighted score; when two or more labels tie
for the maximum it returns the tied label that comes earliest in the map's
insertion order (first appearance across the evaluators' parsed rankings),
not necessarily the earliest label letter.  Selection is a pure function of
the map, so it is deterministic on identical Stage-2 inputs. -/
theorem claim_c2_first_insertion_tiebreak (ws : List (String × ℚ))
    (lm : List (String × String)) (h : ws ≠ []) :
    ∃ l₁ t l₂, ws = l₁ ++ t :: l₂
      ∧ get_top_response ws lm = (t.1, (alookup lm t.1).getD "unknown", t.2)
      ∧ (∀ q ∈ l₁, q.2 < t.2) ∧ ∀ q ∈ ws, q.2 ≤ t.2 := by
  match ws, h with
  | p :: rest, _ =>
    rcases foldl_max_first rest p with ⟨heq, hle⟩ | ⟨l₁, t, l₂, hsplit, heq, hlt, hl₁, hl₂⟩
    · refine ⟨[], p, rest, by simp, ?_, by simp, ?_⟩
      · simp [get_top_response, heq]
      · intro q hq
        rcases List.mem_cons.mp hq with rfl | hq
        · exact le_refl _
        · exact hle q hq
    · refine ⟨p :: l₁, t, l₂, by simp [hsplit], ?_, ?_, ?_⟩
      · simp [get_top_response, heq]
      · intro q hq
        rcases List.mem_cons.mp hq with rfl | hq
        · exact hlt
        · exact hl₁ q hq
      · intro q hq
        rcases List.mem_cons.mp hq with rfl | hq
        · exact le_of_lt hlt
        · rw [hsplit] at hq
          rcases List.mem_append.mp hq with hq | hq
          · exact le_of_lt (hl₁ q hq)
          · rcases List.mem_cons.mp hq with rfl | hq
            · exact le_refl _
            · exact hl₂ q hq

/-- Witness for C2 (amended), at the tied two-label map. -/
theorem claim_c2_first_insertion_tiebreak_witness :
    ∃ l₁ t l₂, ([("Response B", 3), ("Response A", 3)] : List (String × ℚ)) = l₁ ++ t :: l₂
      ∧ get_top_response [("Response B", 3), ("Response A", 3)] s1LabelToModel
          = (t.1, (alookup s1LabelToModel t.1).getD "unknown", t.2)
      ∧ (∀ q ∈ l₁, q.2 < t.2)
      ∧ ∀ q ∈ ([("Response B", 3), ("Response A", 3)] : List (String × ℚ)), q.2 ≤ t.2 :=
  claim_c2_first_insertion_tiebreak [("Response B", 3), ("Response A", 3)] s1LabelToModel
    (by decide)

/-- C8 counterexample: appending an evaluator with parsed ranking `[A, B]` to
an empty list of Stage-2 outputs raises B's weighted score from 0 to 1, so an
added evaluator who ranks X = A first can increase another label's score. -/
theorem claim_c8_counterexample :
    scoreOf (calculate_weighted_rankings [] none) "Response B" = 0
    ∧ scoreOf (calculate_weighted_rankings [c8Extra] none) "Response B" = 1
    ∧ ¬ ((1 : ℚ) ≤ 0) := by
  refine ⟨rfl, ?_, by norm_num⟩
  norm_num +decide [calculate_weighted_rankings, addRanking, addRankingAux, bump, c8Extra,
    scoreOf, alookup]

/-- C8 (amended) — Borda margin monotonicity: extending the Stage-2 outputs
with one evaluator whose (duplicate-free) parsed ranking places X first cannot
decrease X's weighted score, and no other label's score increases by more
than X's does: every margin `score X − score L` is non-decreasing.  (Other
labels' absolute scores can increase, since the new evaluator also awards
points to the labels it ranks below X.) -/
theorem claim_c8_margin_monotonicity (rankings : List RankingResult) (r : RankingResult)
    (X : String) (rest : List String)
    (hparsed : r.parsed_ranking = X :: rest) (hnd : r.parsed_ranking.Nodup) :
    scoreOf (calculate_weighted_rankings rankings none) X
      ≤ scoreOf (calculate_weighted_rankings (rankings ++ [r]) none) X
    ∧ ∀ L, L ≠ X →
        scoreOf (calculate_weighted_rankings (rankings ++ [r]) none) L
            - scoreOf (calculate_weighted_rankings rankings none) L
          ≤ scoreOf (calculate_weighted_rankings (rankings ++ [r]) none) X
            - scoreOf (calculate_weighted_rankings rankings none) X := by
  have hgain : ∀ L, scoreOf (calculate_weighted_rankings (rankings ++ [r]) none) L
      = scoreOf (calculate_weighted_rankings rankings none) L
        + specBordaPoints r.parsed_ranking L := by
    intro L
    rw [calculate_weighted_rankings_append_single,
      scoreOf_addRanking _ _ _ hnd]
  have hX : specBordaPoints r.parsed_ranking X = (r.parsed_ranking.length : ℚ) := by
    rw [hparsed, specBordaPoints_head]
  constructor
  · rw [hgain X, hX]
    have : (0 : ℚ) ≤ (r.parsed_ranking.length : ℚ) := by positivity
    linarith
  · intro L _
    rw [hgain L, hgain X, hX]
    have := specBordaPoints_le_length r.parsed_ranking L
    linarith

/-- Witness for C8 (amended): appending the `[A, B]` evaluator to the empty
list; A's score does not decrease and B gains no more than A. -/
theorem claim_c8_margin_monotonicity_witness :
    scoreOf (calculate_weighted_rankings [] none) "Response A"
      ≤ scoreOf (calculate_weighted_rankings ([] ++ [c8Extra]) none) "Response A"
    ∧ ∀ L, L ≠ "Response A" →
        scoreOf (calculate_weighted_rankings ([] ++ [c8Extra]) none) L
            - scoreOf (calculate_weighted_rankings [] none) L
          ≤ scoreOf (calculate_weighted_rankings ([] ++ [c8Extra]) none) "Response A"
            - scoreOf (calculate_weighted_rankings [] none) "Response A" :=
  claim_c8_margin_monotonicity [] c8Extra "Response A" ["Response B"] rfl (by decide)

/-! ## Quality-rating normalization (C6) -/

/-- `aset` keeps a pointwise property when the inserted pair has it. -/
theorem aset_forall {α : Type} (P : String × α → Prop) :
    ∀ (m : List (String × α)) (k : String) (v : α),
      (∀ p ∈ m, P p) → P (k, v) → ∀ p ∈ aset m k v, P p := by
  intro m
  induction m with
  | nil =>
      intro k v _ hkv p hp
      simp [aset] at hp
      exact hp ▸ hkv
  | cons q rest ih =>
      intro k v hm hkv p hp
      obtain ⟨k', v'⟩ := q
      by_cases hk : k' = k
      · simp [aset, hk] at hp
        rcases hp with rfl | hp
        · exact hkv
        · exact hm p (List.mem_cons_of_mem _ hp)
      · simp [aset, hk] at hp
        rcases hp with rfl | hp
        · exact hm _ (List.mem_cons_self _ _)
        · exact ih k v (fun q hq => hm q (List.mem_cons_of_mem _ hq)) hkv p hp

/-- Every pair produced by the `extract_quality_ratings` fold comes from one
of the matches via the label/normalization maps. -/
theorem extract_quality_ratings_fold (P : String × ℚ → Prop) :
    ∀ (ms : List RatingMatch) (acc : List (String × ℚ)),
      (∀ p ∈ acc, P p) →
      (∀ m ∈ ms, P (ratingLabel m, normalizeRating m.value)) →
      ∀ p ∈ ms.foldl (fun r m => aset r (ratingLabel m) (normalizeRating m.value)) acc, P p := by
  intro ms
  induction ms with
  | nil => intro acc hacc _ p hp; exact hacc p hp
  | cons m rest ih =>
      intro acc hacc hms p hp
      exact ih _ (aset_forall P acc _ _ hacc (hms m (List.mem_cons_self _ _)))
        (fun q hq => hms q (List.mem_cons_of_mem _ hq)) p hp

theorem normalizeRating_range (v : ℚ) (h0 : 0 ≤ v) (h10 : v ≤ 10) :
    0 ≤ normalizeRating v ∧ normalizeRating v ≤ 5 := by
  unfold normalizeRating
  split <;> constructor <;> linarith

/-- C6 counterexample: the rating text `"A: 12/10"` produces the single match
`(A, 12)`; the value exceeds 5, is halved to 6, and the stored rating 6 is
not on the [0,5] scale. -/
theorem claim_c6_counterexample :
    extract_quality_ratings [⟨'A', 12⟩] = [("Response A", 6)]
    ∧ ¬ ((6 : ℚ) ≤ 5) := by
  constructor
  · norm_num +decide [extract_quality_ratings, aset, ratingLabel, normalizeRating]
  · norm_num

/-- C6 (amended) — for every match of the rating pattern the parser records
`label → score`, halving the matched value when it exceeds 5; every stored
rating lies on the [0,5] scale provided every matched value is at most 10
(the pattern's denominators are 5 and 10, but a numerator above 10, e.g.
`12/10`, stores a rating above 5). -/
theorem claim_c6_rating_normalization (ms : List RatingMatch)
    (h : ∀ m ∈ ms, 0 ≤ m.value ∧ m.value ≤ 10) :
    ∀ p ∈ extract_quality_ratings ms,
      (∃ m ∈ ms, p.1 = ratingLabel m ∧ p.2 = normalizeRating m.value)
      ∧ 0 ≤ p.2 ∧ p.2 ≤ 5 := by
  intro p hp
  refine extract_quality_ratings_fold
    (fun p => (∃ m ∈ ms, p.1 = ratingLabel m ∧ p.2 = normalizeRating m.value)
      ∧ 0 ≤ p.2 ∧ p.2 ≤ 5)
    ms [] (by simp) ?_ p hp
  intro m hm
  refine ⟨⟨m, hm, rfl, rfl⟩, ?_⟩
  exact normalizeRating_range m.value (h m hm).1 (h m hm).2

/-- Witness for C6 (amended): matches `(A, 4)` and `(b, 9)` — both values are
in [0,10]; the stored pair `("Response A", 4)` comes from a match and is in
[0,5]. -/
theorem claim_c6_rating_normalization_witness :
    (∃ m ∈ ([⟨'A', 4⟩, ⟨'b', 9⟩] : List RatingMatch),
        (("Response A", (4 : ℚ))).1 = ratingLabel m
        ∧ (("Response A", (4 : ℚ))).2 = normalizeRating m.value)
    ∧ 0 ≤ (("Response A", (4 : ℚ))).2 ∧ (("Response A", (4 : ℚ))).2 ≤ 5 :=
  claim_c6_rating_normalization [⟨'A', 4⟩, ⟨'b', 9⟩] (by decide) ("Response A", 4)
    (by norm_num +decide [extract_quality_ratings, aset, ratingLabel, normalizeRating])

/-! ## Classifier fast path (C7, C10) -/

/-- If the lowercased, trimmed query contains a follow-up phrase, the
heuristic fires (with the first matching phrase). -/
theorem heuristic_some_of_phrase (q : String)
    (hph : ∃ ph ∈ followupPhrases, containsSub (pyStrip (toLowerStr q)) ph = true) :
    ∃ ph, is_followup_heuristic q true
      = some ⟨"followup", "Heuristic: contains " ++ ph⟩ := by
  cases hf : followupPhrases.find? (fun p => containsSub (pyStrip (toLowerStr q)) p) with
  | none =>
      obtain ⟨ph, hmem, hsub⟩ := hph
      have := List.find?_eq_none.mp hf ph hmem
      rw [hsub] at this
      exact absurd rfl this
  | some ph' =>
      refine ⟨ph', ?_⟩
      unfold is_followup_heuristic
      simp [hf]

/-- C7 — classifier heuristic fast path: for every query and non-empty
conversation history, if the lowercased, trimmed query contains one of the
fixed back-reference phrases, `classify_message` returns type `followup` with
zero backend/LLM calls. -/
theorem claim_c7_heuristic_fast_path (q : String) (history : List HistoryMsg)
    (llm : Classification) (hh : history ≠ [])
    (hph : ∃ ph ∈ followupPhrases, containsSub (pyStrip (toLowerStr q)) ph = true) :
    (classify_message q history llm).1.type = "followup"
    ∧ (classify_message q history llm).2 = 0 := by
  have h1 : history.isEmpty = false := by
    cases history with
    | nil => exact absurd rfl hh
    | cons a l => rfl
  obtain ⟨ph, h2⟩ := heuristic_some_of_phrase q hph
  unfold classify_message
  rw [h1]
  simp only [Bool.not_false, h2]
  exact ⟨trivial, trivial⟩

/-- Witness for C7: S4's input `"also can you elaborate"` (which contains the
phrase `"also can you"`) with a one-message history. -/
theorem claim_c7_heuristic_fast_path_witness :
    (classify_message "also can you elaborate" [⟨"user", "hi"⟩]
        ⟨"deliberation", "llm"⟩).1.type = "followup"
    ∧ (classify_message "also can you elaborate" [⟨"user", "hi"⟩]
        ⟨"deliberation", "llm"⟩).2 = 0 :=
  claim_c7_heuristic_fast_path "also can you elaborate" [⟨"user", "hi"⟩]
    ⟨"deliberation", "llm"⟩ (by decide) (by decide)

/-- C10 — no fast path without history: with an empty conversation history the
heuristic returns `None` for every query (the short-message pronoun rule is
gated on history just like the phrase rule), so `classify_message` always
proceeds to the LLM classification, making exactly one backend call.  The
concrete conjuncts show it for `"is that right"`, a ≤ 15-token query with a
context pronoun, which does fire once history is present. -/
theorem claim_c10_no_fast_path_without_history :
    (∀ (q : String) (llm : Classification),
        is_followup_heuristic q false = none
        ∧ classify_message q [] llm = (llm, 1))
    ∧ is_followup_heuristic "is that right" false = none
    ∧ is_followup_heuristic "is that right" true ≠ none := by
  refine ⟨fun q llm => ⟨rfl, rfl⟩, rfl, by decide⟩

/-! ## Router invariants (C3) -/

theorem getD_mod_mem (models : List String) (i : Nat) (h : models ≠ []) :
    models.getD (i % models.length) "" ∈ models := by
  have hpos : 0 < models.length := List.length_pos.mpr h
  have hlt : i % models.length < models.length := Nat.mod_lt i hpos
  rw [List.getD_eq_getElem models "" hlt]
  exact List.getElem_mem hlt

theorem fallback_panel_length (advisors : List Advisor) (models : List String) (count : Nat) :
    (fallback_panel advisors models count).length = min count advisors.length := by
  simp [fallback_panel]

theorem fallback_panel_ids (advisors : List Advisor) (models : List String) (count : Nat) :
    (fallback_panel advisors models count).map PanelEntry.advisor_id
      = ((advisors.map Advisor.id).take count) := by
  unfold fallback_panel
  rw [List.map_map]
  have : (PanelEntry.advisor_id ∘ fun p : Nat × Advisor =>
      (⟨p.2.id, models.getD (p.1 % models.length) "", "fallback selection"⟩ : PanelEntry))
      = (Advisor.id ∘ Prod.snd) := rfl
  rw [this, ← List.map_map, List.enum_map_snd, ← List.map_take]

theorem fallback_panel_models (advisors : List Advisor) (models : List String) (count : Nat)
    (h : models ≠ []) :
    ∀ e ∈ fallback_panel advisors models count, e.model ∈ models := by
  intro e he
  unfold fallback_panel at he
  obtain ⟨p, _, rfl⟩ := List.mem_map.mp he
  exact getD_mod_mem models p.1 h

theorem fallback_panel_ids_nodup (advisors : List Advisor) (models : List String) (count : Nat)
    (hnd : (advisors.map Advisor.id).Nodup) :
    ((fallback_panel advisors models count).map PanelEntry.advisor_id).Nodup := by
  rw [fallback_panel_ids]
  exact hnd.sublist (List.take_sublist _ _)

theorem validateStep_ids (advisors : List Advisor) (models : List String)
    (acc : List PanelEntry) (item : RouterItem) :
    (validateStep advisors models acc item).map PanelEntry.advisor_id
      = acc.map PanelEntry.advisor_id
        ++ (if (advisors.map Advisor.id).contains item.advisor_id
            then [item.advisor_id] else []) := by
  unfold validateStep
  split
  · simp
  · simp

theorem validateFold_ids (advisors : List Advisor) (models : List String) :
    ∀ (panel : List RouterItem) (acc : List PanelEntry),
      ((panel.foldl (validateStep advisors models) acc).map PanelEntry.advisor_id)
        = acc.map PanelEntry.advisor_id
          ++ (panel.map RouterItem.advisor_id).filter
              (fun a => (advisors.map Advisor.id).contains a) := by
  intro panel
  induction panel with
  | nil => intro acc; simp
  | cons item rest ih =>
      intro acc
      rw [List.foldl_cons, ih, validateStep_ids, List.map_cons, List.filter_cons]
      by_cases hc : ((advisors.map Advisor.id).contains item.advisor_id) = true
      · rw [if_pos hc, if_pos hc]
        simp
      · rw [if_neg hc, if_neg hc]
        simp

theorem validateFold_models (advisors : List Advisor) (models : List String)
    (hne : models ≠ []) :
    ∀ (panel : List RouterItem) (acc : List PanelEntry),
      (∀ e ∈ acc, e.model ∈ models) →
      ∀ e ∈ panel.foldl (validateStep advisors models) acc, e.model ∈ models := by
  intro panel
  induction panel with
  | nil => intro acc hacc e he; exact hacc e he
  | cons item rest ih =>
      intro acc hacc e he
      rw [List.foldl_cons] at he
      refine ih _ ?_ e he
      intro e' he'
      unfold validateStep at he'
      split at he'
      · rcases List.mem_append.mp he' with h | h
        · exact hacc e' h
        · rw [List.mem_singleton] at h
          subst h
          dsimp only
          split
          · next hcont => simpa using hcont
          · exact getD_mod_mem models _ hne
      · exact hacc e' he'

/-- C3 counterexample: on the valid three-advisor council with config
`{min 2, max 3, default 3}` and one available model, the validated-LLM-reply
path accepts the reply `[{a,m}, {a,m}]` unchanged — the validation loop does
not deduplicate advisor ids, so the returned panel violates pairwise
distinctness. -/
theorem claim_c3_counterexample :
    (1 ≤ demoRoutingConfig.min_advisors
      ∧ demoRoutingConfig.min_advisors ≤ demoRoutingConfig.default_advisors
      ∧ demoRoutingConfig.default_advisors ≤ demoRoutingConfig.max_advisors
      ∧ demoRoutingConfig.max_advisors ≤ demoAdvisors.length
      ∧ (demoAdvisors.map Advisor.id).Nodup
      ∧ (["m"] : List String) ≠ [])
    ∧ stage0_route_question demoAdvisors demoRoutingConfig ["m"] (some dupRouterPanel)
        = [⟨"a", "m", ""⟩, ⟨"a", "m", ""⟩]
    ∧ ¬ ((stage0_route_question demoAdvisors demoRoutingConfig ["m"]
          (some dupRouterPanel)).map PanelEntry.advisor_id).Nodup := by
  refine ⟨by decide, by decide, by decide⟩

/-- C3 (amended) — router post-invariants: for every router invocation on a
valid council (`1 ≤ min ≤ default ≤ max ≤ |personas|`, distinct persona ids,
non-empty available backends), the returned panel `P` satisfies
`min ≤ |P| ≤ max` and every assigned backend is a member of the available
backends, on both the validated-LLM-reply path and the fallback path.
Advisor ids are pairwise distinct on the fallback path unconditionally, and
on the validated path whenever the LLM reply's advisor ids are pairwise
distinct — the validation loop itself does not deduplicate. -/
theorem claim_c3_router_invariants (advisors : List Advisor) (cfg : RoutingConfig)
    (models : List String) (llmPanel : Option (List RouterItem))
    (hmin : 1 ≤ cfg.min_advisors)
    (hmd : cfg.min_advisors ≤ cfg.default_advisors)
    (hdm : cfg.default_advisors ≤ cfg.max_advisors)
    (hmax : cfg.max_advisors ≤ advisors.length)
    (hnd : (advisors.map Advisor.id).Nodup)
    (hmodels : models ≠ []) :
    (cfg.min_advisors ≤ (stage0_route_question advisors cfg models llmPanel).length
      ∧ (stage0_route_question advisors cfg models llmPanel).length ≤ cfg.max_advisors)
    ∧ (∀ e ∈ stage0_route_question advisors cfg models llmPanel, e.model ∈ models)
    ∧ (llmPanel = none →
        ((stage0_route_question advisors cfg models llmPanel).map PanelEntry.advisor_id).Nodup)
    ∧ (∀ panel, llmPanel = some panel → (panel.map RouterItem.advisor_id).Nodup →
        ((stage0_route_question advisors cfg models llmPanel).map
          PanelEntry.advisor_id).Nodup) := by
  have hpos : 0 < advisors.length := by omega
  have hne : advisors.isEmpty = false := by
    cases advisors with
    | nil => simp at hpos
    | cons a l => rfl
  have hfb_len : (fallback_panel advisors models cfg.default_advisors).length
      = cfg.default_advisors := by
    rw [fallback_panel_length]
    omega
  cases llmPanel with
  | none =>
      simp only [stage0_route_question, hne, Bool.false_eq_true, if_false]
      refine ⟨⟨by omega, by omega⟩, fallback_panel_models _ _ _ hmodels, ?_, ?_⟩
      · intro _
        exact fallback_panel_ids_nodup _ _ _ hnd
      · intro panel hpanel
        exact absurd hpanel (by simp)
  | some panel =>
      simp only [stage0_route_question, hne, Bool.false_eq_true, if_false]
      by_cases hv : (validatePanel advisors models panel).length < cfg.min_advisors
      · simp only [hv, if_true]
        refine ⟨⟨by omega, by omega⟩, fallback_panel_models _ _ _ hmodels, ?_, ?_⟩
        · intro h
          exact absurd h (by simp)
        · intro _ _ _
          exact fallback_panel_ids_nodup _ _ _ hnd
      · simp only [hv, if_false]
        refine ⟨⟨?_, ?_⟩, ?_, ?_, ?_⟩
        · rw [List.length_take]
          omega
        · rw [List.length_take]
          omega
        · intro e he
          exact validateFold_models advisors models hmodels panel [] (by simp) e
            (List.mem_of_mem_take he)
        · intro h
          exact absurd h (by simp)
        · intro panel' hpanel' hnd'
          have heq : panel = panel' := by injection hpanel'
          subst heq
          have hids : (validatePanel advisors models panel).map PanelEntry.advisor_id
              = (panel.map RouterItem.advisor_id).filter
                  (fun a => (advisors.map Advisor.id).contains a) := by
            simpa using validateFold_ids advisors models panel []
          rw [List.map_take, hids]
          exact (hnd'.filter _).sublist (List.take_sublist _ _)

/-- Witness for C3 (amended): the three-advisor roster, config
`{min 2, max 3, default 3}`, two available models, fallback path. -/
theorem claim_c3_router_invariants_witness :
    (demoRoutingConfig.min_advisors
          ≤ (stage0_route_question demoAdvisors demoRoutingConfig ["m", "n"] none).length
      ∧ (stage0_route_question demoAdvisors demoRoutingConfig ["m", "n"] none).length
          ≤ demoRoutingConfig.max_advisors)
    ∧ (∀ e ∈ stage0_route_question demoAdvisors demoRoutingConfig ["m", "n"] none,
        e.model ∈ (["m", "n"] : List String))
    ∧ ((none : Option (List RouterItem)) = none →
        ((stage0_route_question demoAdvisors demoRoutingConfig ["m", "n"] none).map
          PanelEntry.advisor_id).Nodup)
    ∧ (∀ panel, (none : Option (List RouterItem)) = some panel →
        (panel.map RouterItem.advisor_id).Nodup →
        ((stage0_route_question demoAdvisors demoRoutingConfig ["m", "n"] none).map
          PanelEntry.advisor_id).Nodup) :=
  claim_c3_router_invariants demoAdvisors demoRoutingConfig ["m", "n"] none
    (by decide) (by decide) (by decide) (by decide) (by decide) (by decide)

/-! ## Label bijection (C4) -/

theorem labelsFor_keys (stage1 : List Stage1Result) :
    (buildLabelToMember stage1).map Prod.fst
      = (List.range stage1.length).map
          (fun i => "Response " ++ String.mk [Char.ofNat (65 + i)]) := by
  unfold buildLabelToMember
  rw [List.map_map]
  have hlen : (labelsFor stage1).length = stage1.length := by
    simp [labelsFor]
  have : ((Prod.fst ∘ fun p : String × Stage1Result =>
        ("Response " ++ p.1, memberInfoOf p.2)))
      = ((fun s => "Response " ++ s) ∘ Prod.fst) := rfl
  rw [this, ← List.map_map, List.map_fst_zip _ _ (le_of_eq hlen), labelsFor,
    List.map_map]
  rfl

theorem labelsFor_values (stage1 : List Stage1Result) :
    (buildLabelToMember stage1).map Prod.snd = stage1.map memberInfoOf := by
  unfold buildLabelToMember
  rw [List.map_map]
  have hlen : (labelsFor stage1).length = stage1.length := by
    simp [labelsFor]
  have : ((Prod.snd ∘ fun p : String × Stage1Result =>
        ("Response " ++ p.1, memberInfoOf p.2)))
      = (memberInfoOf ∘ Prod.snd) := rfl
  rw [this, ← List.map_map, List.map_snd_zip _ _ (ge_of_eq hlen)]

/-- C4 — label bijection: `label_to_member` pairs the positionally assigned
labels with the Stage-1 outputs in order: it has one entry per Stage-1 output,
its keys are exactly `"Response A" .. "Response chr(64+|Panel|)"` (distinct),
and its values are the member records of the Stage-1 outputs in the same
order — a positional bijection from the labels onto the Stage-1 outputs.
Every key is `"Response "` followed by a single uppercase letter (stated for
panels of at most 26 members, where `chr(65+i)` is a letter). -/
theorem claim_c4_label_bijection (stage1 : List Stage1Result) (panel : List PanelEntry)
    (hlen : stage1.length = panel.length) (h26 : panel.length ≤ 26) :
    (buildLabelToMember stage1).length = stage1.length
    ∧ (buildLabelToMember stage1).map Prod.fst
        = (List.range panel.length).map
            (fun i => "Response " ++ String.mk [Char.ofNat (65 + i)])
    ∧ ((buildLabelToMember stage1).map Prod.fst).Nodup
    ∧ (buildLabelToMember stage1).map Prod.snd = stage1.map memberInfoOf
    ∧ ∀ s ∈ (buildLabelToMember stage1).map Prod.fst,
        ∃ c : Char, s = "Response " ++ String.mk [c] ∧ c.isUpper = true := by
  have hkeys := labelsFor_keys stage1
  have hn : stage1.length ≤ 26 := hlen ▸ h26
  refine ⟨?_, ?_, ?_, labelsFor_values stage1, ?_⟩
  · simp [buildLabelToMember, labelsFor]
  · rw [hkeys, hlen]
  · rw [hkeys]
    have htake : (List.range stage1.length).map
          (fun i => "Response " ++ String.mk [Char.ofNat (65 + i)])
        = ((List.range 26).map
            (fun i => "Response " ++ String.mk [Char.ofNat (65 + i)])).take stage1.length := by
      rw [← List.map_take, List.take_range, Nat.min_eq_left hn]
    rw [htake]
    have hnodup : ((List.range 26).map
        (fun i => "Response " ++ String.mk [Char.ofNat (65 + i)])).Nodup := by decide
    exact hnodup.sublist (List.take_sublist _ _)
  · intro s hs
    rw [hkeys] at hs
    obtain ⟨i, hi, rfl⟩ := List.mem_map.mp hs
    rw [List.mem_range] at hi
    refine ⟨Char.ofNat (65 + i), rfl, ?_⟩
    have hall : ∀ j ∈ List.range 26, (Char.ofNat (65 + j)).isUpper = true := by decide
    exact hall i (List.mem_range.mpr (by omega))

/-- Witness for C4: three Stage-1 outputs and a three-member panel. -/
theorem claim_c4_label_bijection_witness :
    (buildLabelToMember demoStage1).length = demoStage1.length
    ∧ (buildLabelToMember demoStage1).map Prod.fst
        = (List.range demoPanel.length).map
            (fun i => "Response " ++ String.mk [Char.ofNat (65 + i)])
    ∧ ((buildLabelToMember demoStage1).map Prod.fst).Nodup
    ∧ (buildLabelToMember demoStage1).map Prod.snd = demoStage1.map memberInfoOf
    ∧ ∀ s ∈ (buildLabelToMember demoStage1).map Prod.fst,
        ∃ c : Char, s = "Response " ++ String.mk [c] ∧ c.isUpper = true :=
  claim_c4_label_bijection demoStage1 demoPanel (by decide) (by decide)

/-! ## Leaderboard bounded memory (C9) -/

theorem alookup_mem {α : Type} :
    ∀ (m : List (String × α)) (k : String) (v : α), alookup m k = some v → (k, v) ∈ m := by
  intro m
  induction m with
  | nil => intro k v h; simp [alookup] at h
  | cons p rest ih =>
      intro k v h
      obtain ⟨k', v'⟩ := p
      by_cases hk : k' = k
      · subst hk
        simp [alookup] at h
        subst h
        exact List.mem_cons_self _ _
      · simp [alookup, hk] at h
        exact List.mem_cons_of_mem _ (ih k v h)

theorem pushWindow50_length {α : Type} (w : List α) (x : α) :
    (pushWindow50 w x).length = min (w.length + 1) 50 := by
  simp only [pushWindow50, List.length_append, List.length_singleton]
  by_cases h : w.length + 1 > 50
  · rw [if_pos h]
    simp only [List.length_drop, List.length_append, List.length_singleton]
    omega
  · rw [if_neg h]
    simp only [List.length_append, List.length_singleton]
    omega

theorem pushWindow50_suffix {α : Type} (w : List α) (x : α) :
    pushWindow50 w x <:+ w ++ [x] := by
  simp only [pushWindow50, List.length_append, List.length_singleton]
  by_cases h : w.length + 1 > 50
  · rw [if_pos h]
    exact List.drop_suffix _ _
  · rw [if_neg h]

theorem updateRubric_bounded (rs : List (String × List ℚ)) (criteria : List (String × ℚ))
    (h : ∀ w ∈ rs, w.2.length ≤ 50) :
    ∀ w ∈ updateRubric rs criteria, w.2.length ≤ 50 := by
  induction criteria generalizing rs with
  | nil => exact h
  | cons c rest ih =>
      unfold updateRubric
      rw [List.foldl_cons]
      refine ih _ (aset_forall (fun w => w.2.length ≤ 50) rs _ _ h ?_)
      show (pushWindow50 ((alookup rs c.1).getD []) c.2).length ≤ 50
      rw [pushWindow50_length]
      omega

theorem updateEntry_bounded (e : LeaderboardEntry) (pos : Nat) (score : ℚ) (win : Bool)
    (rub : Option (List (String × ℚ))) (h : boundedEntry e) :
    boundedEntry (updateEntry e pos score win rub) := by
  constructor
  · show (pushWindow50 e.positions pos).length ≤ 50
    rw [pushWindow50_length]
    omega
  · show ∀ w ∈ (updateEntry e pos score win rub).rubric_scores, w.2.length ≤ 50
    unfold updateEntry
    cases rub with
    | none => exact h.2
    | some cs => exact updateRubric_bounded e.rubric_scores cs h.2

theorem recordAux_bounded (winner : String)
    (rub : Option (List (String × List (String × ℚ)))) :
    ∀ (scores : List (String × ℚ)) (council : List (String × LeaderboardEntry)) (pos : Nat),
      (∀ me ∈ council, boundedEntry me.2) →
      ∀ me ∈ recordAux winner rub council pos scores, boundedEntry me.2 := by
  intro scores
  induction scores with
  | nil => intro council pos h me hme; exact h me hme
  | cons q rest ih =>
      intro council pos h me hme
      obtain ⟨m, sc⟩ := q
      rw [recordAux] at hme
      refine ih _ _ (aset_forall (fun me => boundedEntry me.2) council _ _ h ?_) me hme
      have hbase : boundedEntry ((alookup council m).getD newLeaderboardEntry) := by
        cases halo : alookup council m with
        | none =>
            simp only [Option.getD]
            exact ⟨by simp [newLeaderboardEntry], by simp [newLeaderboardEntry]⟩
        | some v =>
            simp only [Option.getD]
            exact h (m, v) (alookup_mem council m v halo)
      exact updateEntry_bounded _ _ _ _ _ hbase

/-- C9 — leaderboard bounded memory: `record_deliberation_result` preserves
the invariant that every positions window and every per-criterion window of
every `(council_id, backend_id)` entry holds at most 50 elements; and the
window push used for both kinds of windows keeps the newest element, capping
the length at 50 by dropping the oldest elements first (the result is a
suffix of the old window with the new element appended). -/
theorem claim_c9_leaderboard_bounded_memory
    (data : List (String × List (String × LeaderboardEntry))) (cid : String)
    (scores : List (String × ℚ)) (winner : String)
    (rub : Option (List (String × List (String × ℚ))))
    (h : boundedData data) :
    boundedData (record_deliberation_result data cid scores winner rub)
    ∧ (∀ (w : List Nat) (x : Nat),
        (pushWindow50 w x).length = min (w.length + 1) 50
        ∧ pushWindow50 w x <:+ w ++ [x])
    ∧ (∀ (e : LeaderboardEntry) (pos : Nat) (sc : ℚ) (win : Bool)
          (r : Option (List (String × ℚ))),
        (updateEntry e pos sc win r).positions = pushWindow50 e.positions pos) := by
  refine ⟨?_, fun w x => ⟨pushWindow50_length w x, pushWindow50_suffix w x⟩,
    fun e pos sc win r => rfl⟩
  have h' : ∀ c ∈ data, ∀ me ∈ c.2, boundedEntry me.2 := h
  show ∀ c ∈ aset data cid
      (recordAux winner rub ((alookup data cid).getD []) 1 (sortByScoreDesc scores)),
    ∀ me ∈ c.2, boundedEntry me.2
  refine aset_forall (fun c => ∀ me ∈ c.2, boundedEntry me.2) data _ _ h' ?_
  refine recordAux_bounded winner rub _ _ 1 ?_
  cases halo : alookup data cid with
  | none => simp [Option.getD]
  | some c =>
      simp only [Option.getD]
      exact h (cid, c) (alookup_mem data cid c halo)

/-- Witness for C9: recording a two-model result on the empty leaderboard. -/
theorem claim_c9_leaderboard_bounded_memory_witness :
    boundedData (record_deliberation_result [] "personal" [("m", 5), ("n", 7)] "n" none)
    ∧ (∀ (w : List Nat) (x : Nat),
        (pushWindow50 w x).length = min (w.length + 1) 50
        ∧ pushWindow50 w x <:+ w ++ [x])
    ∧ (∀ (e : LeaderboardEntry) (pos : Nat) (sc : ℚ) (win : Bool)
          (r : Option (List (String × ℚ))),
        (updateEntry e pos sc win r).positions = pushWindow50 e.positions pos) :=
  claim_c9_leaderboard_bounded_memory [] "personal" [("m", 5), ("n", 7)] "n" none
    (by simp [boundedData])

/-! ## Minority-opinion detection (C5) -/

theorem foldl_append_bind {α β : Type} (g : α → List β) :
    ∀ (l : List α) (acc : List β),
      l.foldl (fun acc x => acc ++ g x) acc = acc ++ l.flatMap g := by
  intro l
  induction l with
  | nil => intro acc; simp
  | cons x rest ih =>
      intro acc
      rw [List.foldl_cons, ih, List.flatMap_cons, List.append_assoc]

theorem detect_eq_bind (rankings : List RankingResult) (ltm : List (String × String))
    (threshold : ℚ) (h : ¬ rankings.length < 3) :
    detect_minority_opinions rankings ltm threshold
      = (positionCounts rankings).flatMap
          (minorityEntriesFor rankings ltm
            (max 1 (⌊(rankings.length : ℚ) * threshold⌋).toNat)) := by
  unfold detect_minority_opinions
  rw [if_neg h]
  exact foldl_append_bind _ _ []

theorem appendPos_keys (m : List (String × List Nat)) (k : String) (p : Nat) :
    (appendPos m k p).map Prod.fst
      = if k ∈ m.map Prod.fst then m.map Prod.fst else m.map Prod.fst ++ [k] := by
  induction m with
  | nil => simp [appendPos]
  | cons q rest ih =>
      obtain ⟨k', ps⟩ := q
      by_cases hk : k' = k
      · subst hk
        simp [appendPos]
      · have hne : ¬ k = k' := fun he => hk he.symm
        by_cases hmem : k ∈ rest.map Prod.fst
        · simp [appendPos, hk, ih, hmem, hne]
        · simp [appendPos, hk, ih, hmem, hne]

theorem appendPos_keys_nodup (m : List (String × List Nat)) (k : String) (p : Nat)
    (h : (m.map Prod.fst).Nodup) : ((appendPos m k p).map Prod.fst).Nodup := by
  rw [appendPos_keys]
  split
  · exact h
  · next hk =>
      rw [List.nodup_append]
      exact ⟨h, List.nodup_singleton k, fun a ha hb => by
        rw [List.mem_singleton] at hb
        subst hb
        exact hk ha⟩

theorem addPositionsAux_keys_nodup :
    ∀ (xs : List String) (acc : List (String × List Nat)) (i : Nat),
      ((acc.map Prod.fst).Nodup) → (((addPositionsAux acc i xs).map Prod.fst).Nodup) := by
  intro xs
  induction xs with
  | nil => intro acc i h; exact h
  | cons x rest ih =>
      intro acc i h
      rw [addPositionsAux]
      exact ih _ _ (appendPos_keys_nodup acc x (i + 1) h)

theorem positionCounts_keys_nodup (rankings : List RankingResult) :
    ((positionCounts rankings).map Prod.fst).Nodup := by
  unfold positionCounts
  have : ∀ (rs : List RankingResult) (acc : List (String × List Nat)),
      (acc.map Prod.fst).Nodup →
      ((rs.foldl (fun acc r => addPositionsAux acc 0 r.parsed_ranking) acc).map
        Prod.fst).Nodup := by
    intro rs
    induction rs with
    | nil => intro acc h; exact h
    | cons r rest ih =>
        intro acc h
        rw [List.foldl_cons]
        exact ih _ (addPositionsAux_keys_nodup r.parsed_ranking acc 0 h)
  exact this rankings [] (by simp)

theorem keys_nodup_mem_unique {α : Type} :
    ∀ (m : List (String × α)), (m.map Prod.fst).Nodup →
      ∀ (k : String) (v₁ v₂ : α), (k, v₁) ∈ m → (k, v₂) ∈ m → v₁ = v₂ := by
  intro m
  induction m with
  | nil => intro _ k v₁ v₂ h1 _; simp at h1
  | cons q rest ih =>
      intro hnd k v₁ v₂ h1 h2
      rw [List.map_cons, List.nodup_cons] at hnd
      rcases List.mem_cons.mp h1 with he1 | ht1 <;> rcases List.mem_cons.mp h2 with he2 | ht2
      · rw [← he1] at he2
        exact (Prod.mk.injEq _ _ _ _ |>.mp he2).2.symm
      · exfalso
        refine hnd.1 ?_
        rw [← he1]
        exact List.mem_map.mpr ⟨(k, v₂), ht2, rfl⟩
      · exfalso
        refine hnd.1 ?_
        rw [← he2]
        exact List.mem_map.mpr ⟨(k, v₁), ht1, rfl⟩
      · exact ih hnd.2 k v₁ v₂ ht1 ht2

theorem minorityEntriesFor_eq (rankings : List RankingResult) (ltm : List (String × String))
    (md : Nat) (L : String) (ps : List Nat) (h : ¬ ps.length < 2) :
    minorityEntriesFor rankings ltm md (L, ps)
      = (if md ≤ ((rankings.zip ps).filter
            (fun q => ((q.2 : ℚ) - ((ps.map (fun p => (p : ℚ))).sum) / (ps.length : ℚ))
              ≤ -(3 / 2))).length
          then [⟨L, (alookup ltm L).getD "unknown", "higher",
            ((rankings.zip ps).filter
              (fun q => ((q.2 : ℚ) - ((ps.map (fun p => (p : ℚ))).sum) / (ps.length : ℚ))
                ≤ -(3 / 2))).map (fun q => q.1.model)⟩]
          else [])
        ++ (if md ≤ ((rankings.zip ps).filter
            (fun q => ((q.2 : ℚ) - ((ps.map (fun p => (p : ℚ))).sum) / (ps.length : ℚ))
              ≥ 3 / 2)).length
          then [⟨L, (alookup ltm L).getD "unknown", "lower",
            ((rankings.zip ps).filter
              (fun q => ((q.2 : ℚ) - ((ps.map (fun p => (p : ℚ))).sum) / (ps.length : ℚ))
                ≥ 3 / 2)).map (fun q => q.1.model)⟩]
          else []) := by
  unfold minorityEntriesFor
  rw [if_neg h]

theorem minorityEntriesFor_response (rankings : List RankingResult)
    (ltm : List (String × String)) (md : Nat) (lp : String × List Nat) :
    ∀ e ∈ minorityEntriesFor rankings ltm md lp, e.response = lp.1 := by
  intro e he
  obtain ⟨L, ps⟩ := lp
  by_cases h : ps.length < 2
  · unfold minorityEntriesFor at he
    rw [if_pos h] at he
    simp at he
  · rw [minorityEntriesFor_eq rankings ltm md L ps h] at he
    rcases List.mem_append.mp he with hm | hm
    · split at hm
      · rw [List.mem_singleton] at hm
        subst hm
        rfl
      · simp at hm
    · split at hm
      · rw [List.mem_singleton] at hm
        subst hm
        rfl
      · simp at hm

/-- C5 counterexample: (a) for the two evaluators `[A,B,C,D]`, `[D,C,B,A]`,
label A is recorded by 2 evaluators with positions 1 and 4 (avg 2.5), both at
distance 1.5 from the average, and `max(1, ⌊0.3·2⌋) = 1`, so the claim
predicts minority-opinion entries — but the code returns `[]` because it
bails out for fewer than 3 rankings; (b) with a third evaluator whose parsed
ranking is empty (`minority3Rankings`), entries are produced but
`zip(rankings, positions)` attributes the recorded positions to the first
rankings in list order: every `dissenting_models` names `m1` or `m2`, while
the evaluators that recorded the dissenting positions are `m2` and `m3`. -/
theorem claim_c5_counterexample :
    detect_minority_opinions minority2Rankings abcdLabelToModel (3 / 10) = []
    ∧ (detect_minority_opinions minority3Rankings abcdLabelToModel (3 / 10)).map
        MinorityOpinion.dissenting_models = [["m1"], ["m2"], ["m2"], ["m1"]]
    ∧ (["m1"] : List String) ≠ ["m2"] := by
  refine ⟨rfl, ?_, by decide⟩
  norm_num +decide [detect_minority_opinions, positionCounts, addPositionsAux, appendPos,
    minorityEntriesFor, minority3Rankings, alookup, abcdLabelToModel]

/-- C5 (amended) — minority-opinion detection: for every list of **at least
3** Stage-2 outputs and every label whose positions list (1-indexed, across
all evaluators) has length ≥ 2, with `avg` the mean of the recorded
positions: pairing the recorded positions with the rankings list positionally
(`zip(rankings, positions)` — the i-th recorded position is attributed to the
i-th ranking overall, which is the recording evaluator only when every
evaluator ranked the label), the pairs at distance `≤ avg − 1.5` form
`dissenters_high` and those `≥ avg + 1.5` form `dissenters_low`, and a
minority-opinion entry for that label and direction (carrying the attributed
models) is recorded exactly when the group's size is
`≥ max(1, ⌊0.3 · num_evaluators⌋)` (threshold fraction 3/10, modelled as an
exact rational). -/
theorem claim_c5_minority_detection (rankings : List RankingResult)
    (ltm : List (String × String)) (L : String) (ps : List Nat)
    (md : Nat) (avg : ℚ) (dh dl : List (RankingResult × Nat))
    (h3 : 3 ≤ rankings.length)
    (hmem : (L, ps) ∈ positionCounts rankings)
    (h2 : 2 ≤ ps.length)
    (hmd : md = max 1 (⌊(rankings.length : ℚ) * (3 / 10)⌋).toNat)
    (havg : avg = ((ps.map (fun p => (p : ℚ))).sum) / (ps.length : ℚ))
    (hdh : dh = (rankings.zip ps).filter (fun q => ((q.2 : ℚ) - avg) ≤ -(3 / 2)))
    (hdl : dl = (rankings.zip ps).filter (fun q => ((q.2 : ℚ) - avg) ≥ 3 / 2)) :
    ((⟨L, (alookup ltm L).getD "unknown", "higher", dh.map (fun q => q.1.model)⟩ :
        MinorityOpinion) ∈ detect_minority_opinions rankings ltm (3 / 10)
      ↔ md ≤ dh.length)
    ∧ ((⟨L, (alookup ltm L).getD "unknown", "lower", dl.map (fun q => q.1.model)⟩ :
        MinorityOpinion) ∈ detect_minority_opinions rankings ltm (3 / 10)
      ↔ md ≤ dl.length) := by
  subst havg
  subst hdh
  subst hdl
  subst hmd
  have hnd := positionCounts_keys_nodup rankings
  have hdet := detect_eq_bind rankings ltm (3 / 10) (by omega)
  have hps2 : ¬ ps.length < 2 := by omega
  have hfold := minorityEntriesFor_eq rankings ltm
    (max 1 (⌊(rankings.length : ℚ) * (3 / 10)⌋).toNat) L ps hps2
  constructor
  · constructor
    · intro hX
      rw [hdet] at hX
      obtain ⟨lp, hlp, hXin⟩ := List.mem_flatMap.mp hX
      obtain ⟨l1, l2⟩ := lp
      have hresp := minorityEntriesFor_response rankings ltm _ (l1, l2) _ hXin
      have hl1 : L = l1 := hresp
      subst hl1
      have hl2 : l2 = ps := keys_nodup_mem_unique _ hnd L l2 ps hlp hmem
      subst hl2
      rw [hfold] at hXin
      rcases List.mem_append.mp hXin with hm | hm
      · split at hm
        · next hcond => exact hcond
        · simp at hm
      · split at hm
        · rw [List.mem_singleton] at hm
          have := congrArg MinorityOpinion.dissent_direction hm
          simp at this
        · simp at hm
    · intro hlen
      rw [hdet]
      refine List.mem_flatMap.mpr ⟨(L, ps), hmem, ?_⟩
      rw [hfold]
      refine List.mem_append.mpr (Or.inl ?_)
      rw [if_pos hlen]
      exact List.mem_singleton.mpr rfl
  · constructor
    · intro hX
      rw [hdet] at hX
      obtain ⟨lp, hlp, hXin⟩ := List.mem_flatMap.mp hX
      obtain ⟨l1, l2⟩ := lp
      have hresp := minorityEntriesFor_response rankings ltm _ (l1, l2) _ hXin
      have hl1 : L = l1 := hresp
      subst hl1
      have hl2 : l2 = ps := keys_nodup_mem_unique _ hnd L l2 ps hlp hmem
      subst hl2
      rw [hfold] at hXin
      rcases List.mem_append.mp hXin with hm | hm
      · split at hm
        · rw [List.mem_singleton] at hm
          have := congrArg MinorityOpinion.dissent_direction hm
          simp at this
        · simp at hm
      · split at hm
        · next hcond => exact hcond
        · simp at hm
    · intro hlen
      rw [hdet]
      refine List.mem_flatMap.mpr ⟨(L, ps), hmem, ?_⟩
      rw [hfold]
      refine List.mem_append.mpr (Or.inr ?_)
      rw [if_pos hlen]
      exact List.mem_singleton.mpr rfl

/-- Witness for C5 (amended): `minority3Rankings`, label A with recorded
positions `[1, 4]`, average 5/2, one dissenter in each direction,
`min_dissenters = 1`. -/
theorem claim_c5_minority_detection_witness :
    ((⟨"Response A", (alookup abcdLabelToModel "Response A").getD "unknown", "higher",
        ([(⟨"m1", []⟩, 1)] : List (RankingResult × Nat)).map (fun q => q.1.model)⟩ :
        MinorityOpinion) ∈ detect_minority_opinions minority3Rankings abcdLabelToModel (3 / 10)
      ↔ 1 ≤ ([(⟨"m1", []⟩, 1)] : List (RankingResult × Nat)).length)
    ∧ ((⟨"Response A", (alookup abcdLabelToModel "Response A").getD "unknown", "lower",
        ([(⟨"m2", ["Response A", "Response B", "Response C", "Response D"]⟩, 4)] :
          List (RankingResult × Nat)).map (fun q => q.1.model)⟩ :
        MinorityOpinion) ∈ detect_minority_opinions minority3Rankings abcdLabelToModel (3 / 10)
      ↔ 1 ≤ ([(⟨"m2", ["Response A", "Response B", "Response C", "Response D"]⟩, 4)] :
          List (RankingResult × Nat)).length) :=
  claim_c5_minority_detection minority3Rankings abcdLabelToModel "Response A" [1, 4]
    1 (5 / 2) [(⟨"m1", []⟩, 1)]
    [(⟨"m2", ["Response A", "Response B", "Response C", "Response D"]⟩, 4)]
    (by decide) (by decide) (by decide)
    (by simp only [minority3Rankings, List.length_cons, List.length_nil]; norm_num)
    (by norm_num)
    (by norm_num +decide [minority3Rankings])
    (by norm_num +decide [minority3Rankings])

end LLMCouncil
